import Mathlib

/-!
Shallow embedding of `src/pointer_array.c`.

A C array argument `int *arr` is modelled as `Option (List Int)`:
`none` is a NULL pointer, `some l` is a valid pointer to the block of
elements reachable from it.  A `size_t len` is a `Nat`.  Pointer
arithmetic `arr + k` becomes the index `k` into the list; `*p` at offset
`k` becomes `l.getD k 0`; a store through a pointer at offset `k`
becomes `l.set k v`.  Functions that write through a pointer return the
updated block next to the C return value.  The platform `int` is a
32-bit two's-complement integer; `wrap32` reduces an unbounded `Int`
into its representable range, which is the wraparound the comment in
`array_sum_ptr` refers to.
-/

namespace PointerArray

/-- The constant INT_MIN from `<limits.h>` for a 32-bit `int`. -/
def INT_MIN : Int := -(2 ^ 31)

/-- Two's-complement wraparound at 32 bits: reduce an integer modulo
`2 ^ 32` into the interval `[-2 ^ 31, 2 ^ 31)`. -/
def wrap32 (z : Int) : Int := (z + 2 ^ 31) % 2 ^ 32 - 2 ^ 31

/-- Function array_sum_ptr (src/pointer_array.c lines 23-41).  The guard
`arr == NULL && len > 0` returns 0; with a NULL pointer and `len = 0`
the loop body never runs and the function also returns 0, so the
`none` branch is 0 unconditionally.  The pointer walk from `arr` to
`arr + len` accumulating `sum += *p` in a 32-bit `int` is the left fold
of the wrapped addition over the first `len` elements. -/
def array_sum_ptr (arr : Option (List Int)) (len : Nat) : Int :=
  match arr with
  | none => 0
  | some l => (l.take len).foldl (fun s x => wrap32 (s + x)) 0

/-- The loop of `array_reverse_ptr` (lines 63-72): `left` and `right`
are the two cursors (`right` one past the segment), the body first
decrements `right`, breaks when the cursors met or crossed, otherwise
swaps `*left` with `*right` and advances `left`. -/
def reverseLoop (l : List Int) (left right : Nat) : List Int :=
  if _h : left < right then
    if _h2 : left ≥ right - 1 then l
    else
      reverseLoop ((l.set left (l.getD (right - 1) 0)).set (right - 1) (l.getD left 0))
        (left + 1) (right - 1)
  else l
termination_by right - left
decreasing_by omega

/-- Function array_reverse_ptr (lines 52-75): returns the C status code and
the block the pointer refers to after the call. -/
def array_reverse_ptr (arr : Option (List Int)) (len : Nat) : Int × Option (List Int) :=
  match arr with
  | none => if len > 0 then (-1, none) else (0, none)
  | some l => (0, some (reverseLoop l 0 len))

/-- The loop of `array_copy_ptr` (lines 100-104): `*d = *s; ++d; ++s`
until `s` reaches `src + len`; both pointers stay at the same offset
`i` from their bases. -/
def copyLoop (d s : List Int) (i len : Nat) : List Int :=
  if _h : i < len then copyLoop (d.set i (s.getD i 0)) s (i + 1) len else d
termination_by len - i

/-- Function array_copy_ptr (lines 89-107): returns the C status code and the
destination block after the call.  When the guard does not fire and a
pointer is still NULL, `len = 0` holds and the loop body never runs. -/
def array_copy_ptr (dst src : Option (List Int)) (len : Nat) : Int × Option (List Int) :=
  if (dst = none ∨ src = none) ∧ len > 0 then (-1, dst)
  else
    match dst, src with
    | some d, some s => (0, some (copyLoop d s 0 len))
    | _, _ => (0, dst)

/-- The loop of `array_max_ptr` (lines 134-139): scan offsets `p` up to
`len`, replacing `maxv` whenever a strictly larger element is seen. -/
def maxLoop (l : List Int) (p len : Nat) (maxv : Int) : Int :=
  if _h : p < len then
    maxLoop l (p + 1) len (if l.getD p 0 > maxv then l.getD p 0 else maxv)
  else maxv
termination_by len - p

/-- Function array_max_ptr (lines 119-145).  The optional out-parameter
`int *ok` is modelled by `okPresent : Bool`; the second component of
the result is the value stored in the slot after the call (`none` when
the slot is absent).  The function first stores 0 into a present slot,
rejects `arr == NULL || len == 0` with `INT_MIN`, otherwise seeds the
scan with `*arr`, runs the loop from offset 1, and stores 1. -/
def array_max_ptr (arr : Option (List Int)) (len : Nat) (okPresent : Bool) :
    Int × Option Int :=
  match arr with
  | none => (INT_MIN, if okPresent then some 0 else none)
  | some l =>
    if len = 0 then (INT_MIN, if okPresent then some 0 else none)
    else (maxLoop l 1 len (l.getD 0 0), if okPresent then some 1 else none)

example : array_sum_ptr (some [1, 2, 3, 4]) 4 = 10 := by decide
example : array_reverse_ptr (some [1, 2, 3, 4, 5]) 5 = (0, some [5, 4, 3, 2, 1]) := by
  simp [array_reverse_ptr, reverseLoop]
example : array_copy_ptr (some [0, 0, 0]) (some [7, 8, 9]) 3 = (0, some [7, 8, 9]) := by
  simp [array_copy_ptr, copyLoop]
example : array_max_ptr (some [3, -1, 7, 2]) 4 true = (7, some 1) := by
  simp [array_max_ptr, maxLoop]
example : array_max_ptr none 0 true = (INT_MIN, some 0) := by decide

/-! Helper lemmas about stores and loads at list offsets. -/

lemma getD_set_self {l : List Int} {i : Nat} {a : Int} (h : i < l.length) :
    (l.set i a).getD i 0 = a := by
  simp [List.getD_eq_getElem?_getD, List.getElem?_set, h]

lemma getD_set_ne {l : List Int} {i j : Nat} {a : Int} (h : i ≠ j) :
    (l.set i a).getD j 0 = l.getD j 0 := by
  simp [List.getD_eq_getElem?_getD, List.getElem?_set, h]

lemma getD_mem {l : List Int} {i : Nat} (h : i < l.length) : l.getD i 0 ∈ l := by
  rw [List.getD_eq_getElem l 0 h]
  exact List.getElem_mem h

/-! Properties of the reversal loop. -/

lemma reverseLoop_length (l : List Int) (left right : Nat) :
    (reverseLoop l left right).length = l.length := by
  induction l, left, right using reverseLoop.induct with
  | case1 l left right h h2 =>
    rw [reverseLoop, dif_pos h, dif_pos h2]
  | case2 l left right h h2 ih =>
    rw [reverseLoop, dif_pos h, dif_neg h2, ih]
    simp
  | case3 l left right h =>
    rw [reverseLoop, dif_neg h]

/-- Pointwise effect of the loop: offsets inside `[left, right)` hold the
mirrored element, offsets outside are untouched.  The mirror of `i` in the
segment is `left + right - 1 - i`. -/
lemma reverseLoop_getD (l : List Int) (left right : Nat) :
    ∀ i : Nat, right ≤ l.length →
      (reverseLoop l left right).getD i 0 =
        if left ≤ i ∧ i < right then l.getD (left + right - 1 - i) 0 else l.getD i 0 := by
  induction l, left, right using reverseLoop.induct with
  | case1 l left right h h2 =>
    intro i _hr
    rw [reverseLoop, dif_pos h, dif_pos h2]
    split
    · next hi =>
      have hidx : left + right - 1 - i = i := by omega
      rw [hidx]
    · rfl
  | case2 l left right h h2 ih =>
    intro i hr
    rw [reverseLoop, dif_pos h, dif_neg h2]
    rw [ih i (by simp; omega)]
    by_cases hmid : left + 1 ≤ i ∧ i < right - 1
    · rw [if_pos hmid, if_pos (by omega)]
      have hidx : left + 1 + (right - 1) - 1 - i = left + right - 1 - i := by omega
      rw [hidx]
      rw [getD_set_ne (show right - 1 ≠ left + right - 1 - i by omega)]
      rw [getD_set_ne (show left ≠ left + right - 1 - i by omega)]
    · by_cases hL : i = left
      · rw [hL, if_neg (by omega), if_pos (by omega)]
        rw [getD_set_ne (show right - 1 ≠ left by omega)]
        rw [getD_set_self (show left < l.length by omega)]
        have hidx : left + right - 1 - left = right - 1 := by omega
        rw [hidx]
      · by_cases hR : i = right - 1
        · rw [hR, if_neg (by omega), if_pos (by omega)]
          rw [getD_set_self (by simp; omega)]
          have hidx : left + right - 1 - (right - 1) = left := by omega
          rw [hidx]
        · rw [if_neg hmid, if_neg (by omega)]
          rw [getD_set_ne (show right - 1 ≠ i from fun hc => hR hc.symm)]
          rw [getD_set_ne (show left ≠ i from fun hc => hL hc.symm)]
  | case3 l left right h =>
    intro i _hr
    rw [reverseLoop, dif_neg h, if_neg (by omega)]

lemma reverseLoop_zero (l : List Int) : reverseLoop l 0 0 = l := by
  rw [reverseLoop]
  simp

lemma reverseLoop_one (l : List Int) : reverseLoop l 0 1 = l := by
  rw [reverseLoop]
  simp

/-- On the whole block the loop computes list reversal. -/
lemma reverseLoop_eq_reverse (l : List Int) : reverseLoop l 0 l.length = l.reverse := by
  apply List.ext_getElem
  · rw [reverseLoop_length, List.length_reverse]
  · intro n h1 h2
    have hn : n < l.length := by
      have := reverseLoop_length l 0 l.length
      omega
    rw [← List.getD_eq_getElem _ 0 h1, ← List.getD_eq_getElem _ 0 h2]
    rw [reverseLoop_getD l 0 l.length n le_rfl, if_pos ⟨Nat.zero_le n, hn⟩]
    have h3 : l.length - 1 - n < l.length := by omega
    rw [List.getD_eq_getElem _ 0 (by omega : 0 + l.length - 1 - n < l.length)]
    rw [List.getD_eq_getElem _ 0 h2, List.getElem_reverse]
    congr 1
    omega

/-! Properties of the copy loop. -/

lemma copyLoop_length (d s : List Int) (i len : Nat) :
    (copyLoop d s i len).length = d.length := by
  induction d, s, i, len using copyLoop.induct with
  | case1 d s i len h ih =>
    rw [copyLoop, dif_pos h, ih]
    simp
  | case2 d s i len h =>
    rw [copyLoop, dif_neg h]

/-- Pointwise effect of the copy loop: offsets in `[i, len)` hold the source
element, offsets outside are untouched. -/
lemma copyLoop_getD (d s : List Int) (i len : Nat) :
    ∀ j : Nat, len ≤ d.length →
      (copyLoop d s i len).getD j 0 =
        if i ≤ j ∧ j < len then s.getD j 0 else d.getD j 0 := by
  induction d, s, i, len using copyLoop.induct with
  | case1 d s i len h ih =>
    intro j hd
    rw [copyLoop, dif_pos h]
    rw [ih j (by simp; omega)]
    by_cases hmid : i + 1 ≤ j ∧ j < len
    · rw [if_pos hmid, if_pos (by omega)]
    · by_cases hij : j = i
      · rw [hij, if_neg (by omega), if_pos (by omega)]
        exact getD_set_self (by omega)
      · rw [if_neg hmid, if_neg (by omega)]
        exact getD_set_ne (show i ≠ j from fun hc => hij hc.symm)
  | case2 d s i len h =>
    intro j _hd
    rw [copyLoop, dif_neg h, if_neg (by omega)]

lemma copyLoop_zero (d s : List Int) : copyLoop d s 0 0 = d := by
  rw [copyLoop]
  simp

/-! Properties of the max loop. -/

lemma maxLoop_ge (l : List Int) (p0 len0 : Nat) (maxv0 : Int) :
    maxv0 ≤ maxLoop l p0 len0 maxv0 ∧
      ∀ j : Nat, p0 ≤ j → j < len0 → l.getD j 0 ≤ maxLoop l p0 len0 maxv0 := by
  refine maxLoop.induct l
    (fun p len maxv =>
      maxv ≤ maxLoop l p len maxv ∧
        ∀ j : Nat, p ≤ j → j < len → l.getD j 0 ≤ maxLoop l p len maxv)
    ?_ ?_ p0 len0 maxv0
  · intro p len maxv h ih
    simp only [dite_eq_ite] at ih
    rw [maxLoop, dif_pos h]
    refine ⟨le_trans (by split <;> omega) ih.1, ?_⟩
    intro j hj1 hj2
    rcases Nat.eq_or_lt_of_le hj1 with hj | hj
    · rw [← hj]
      exact le_trans (by split <;> omega) ih.1
    · exact ih.2 j hj hj2
  · intro p len maxv h
    rw [maxLoop, dif_neg h]
    exact ⟨le_refl _, fun j hj1 hj2 => absurd (lt_of_le_of_lt hj1 hj2) h⟩

lemma maxLoop_mem (l : List Int) (p0 len0 : Nat) (maxv0 : Int) :
    maxLoop l p0 len0 maxv0 = maxv0 ∨
      ∃ j : Nat, p0 ≤ j ∧ j < len0 ∧ maxLoop l p0 len0 maxv0 = l.getD j 0 := by
  refine maxLoop.induct l
    (fun p len maxv =>
      maxLoop l p len maxv = maxv ∨
        ∃ j : Nat, p ≤ j ∧ j < len ∧ maxLoop l p len maxv = l.getD j 0)
    ?_ ?_ p0 len0 maxv0
  · intro p len maxv h ih
    simp only [dite_eq_ite] at ih
    rw [maxLoop, dif_pos h]
    rcases ih with heq | hj
    · rw [heq]
      split
      · exact Or.inr ⟨p, le_refl p, h, rfl⟩
      · exact Or.inl rfl
    · rcases hj with ⟨j, hj1, hj2, hj3⟩
      rw [hj3]
      exact Or.inr ⟨j, by omega, hj2, rfl⟩
  · intro p len maxv h
    rw [maxLoop, dif_neg h]
    exact Or.inl rfl

/-! Properties of 32-bit wraparound addition. -/

lemma wrap32_idem (z : Int) : wrap32 (wrap32 z) = wrap32 z := by
  unfold wrap32
  omega

lemma wrap32_add_left (u v : Int) : wrap32 (wrap32 u + v) = wrap32 (u + v) := by
  unfold wrap32
  omega

/-- Folding wrapped addition over a list wraps the mathematical sum. -/
lemma foldl_wrapAdd (l : List Int) :
    ∀ a : Int, wrap32 a = a →
      l.foldl (fun s x => wrap32 (s + x)) a = wrap32 (a + l.sum) := by
  induction l with
  | nil =>
    intro a ha
    simpa using ha.symm
  | cons x xs ih =>
    intro a ha
    rw [List.foldl_cons, List.sum_cons]
    rw [ih (wrap32 (a + x)) (wrap32_idem _), wrap32_add_left]
    congr 1
    ring

/-! Claim theorems. -/

/-- C1: for every present sequence of `len` elements, `array_reverse_ptr`
returns 0 and afterwards position `i` holds the element that was at
position `len - 1 - i` for every `i < len`; for `len` 0 or 1 no element
is changed. -/
theorem C1_reverse_correct (l : List Int) (len : Nat) (h : l.length = len) :
    (array_reverse_ptr (some l) len).1 = 0 ∧
    (array_reverse_ptr (some l) len).2 = some (reverseLoop l 0 len) ∧
    (reverseLoop l 0 len).length = len ∧
    (∀ i : Nat, i < len → (reverseLoop l 0 len).getD i 0 = l.getD (len - 1 - i) 0) ∧
    (len ≤ 1 → reverseLoop l 0 len = l) := by
  refine ⟨rfl, rfl, by rw [reverseLoop_length, h], ?_, ?_⟩
  · intro i hi
    rw [reverseLoop_getD l 0 len i (by omega), if_pos ⟨Nat.zero_le i, hi⟩]
    congr 1
    omega
  · intro hle
    rcases (show len = 0 ∨ len = 1 by omega) with h0 | h0
    · rw [h0]
      exact reverseLoop_zero l
    · rw [h0]
      exact reverseLoop_one l

/-- Witness for C1 at the concrete input of the spec example. -/
theorem C1_reverse_correct_witness :
    List.length [1, 2, 3, 4, 5] = 5 ∧
    ((array_reverse_ptr (some [1, 2, 3, 4, 5]) 5).1 = 0 ∧
     (array_reverse_ptr (some [1, 2, 3, 4, 5]) 5).2 = some (reverseLoop [1, 2, 3, 4, 5] 0 5) ∧
     (reverseLoop [1, 2, 3, 4, 5] 0 5).length = 5 ∧
     (∀ i : Nat, i < 5 →
       (reverseLoop [1, 2, 3, 4, 5] 0 5).getD i 0 = List.getD [1, 2, 3, 4, 5] (5 - 1 - i) 0) ∧
     (5 ≤ 1 → reverseLoop [1, 2, 3, 4, 5] 0 5 = [1, 2, 3, 4, 5])) :=
  ⟨rfl, C1_reverse_correct [1, 2, 3, 4, 5] 5 rfl⟩

/-- C2: for every pair of present sequences of length `L`,
`array_copy_ptr` returns 0 and afterwards `dst[i] = src[i]` for every
`i < L`. -/
theorem C2_copy_correct (d s : List Int) (len : Nat) (hd : d.length = len)
    (_hs : s.length = len) :
    (array_copy_ptr (some d) (some s) len).1 = 0 ∧
    (array_copy_ptr (some d) (some s) len).2 = some (copyLoop d s 0 len) ∧
    (copyLoop d s 0 len).length = len ∧
    ∀ i : Nat, i < len → (copyLoop d s 0 len).getD i 0 = s.getD i 0 := by
  have h1 : array_copy_ptr (some d) (some s) len = (0, some (copyLoop d s 0 len)) := by
    unfold array_copy_ptr
    rw [if_neg (by simp)]
  refine ⟨by rw [h1], by rw [h1], by rw [copyLoop_length, hd], ?_⟩
  intro i hi
  rw [copyLoop_getD d s 0 len i (by omega), if_pos ⟨Nat.zero_le i, hi⟩]

/-- Witness for C2 at the concrete input of the spec example. -/
theorem C2_copy_correct_witness :
    List.length [0, 0, 0] = 3 ∧ List.length [7, 8, 9] = 3 ∧
    ((array_copy_ptr (some [0, 0, 0]) (some [7, 8, 9]) 3).1 = 0 ∧
     (array_copy_ptr (some [0, 0, 0]) (some [7, 8, 9]) 3).2 =
       some (copyLoop [0, 0, 0] [7, 8, 9] 0 3) ∧
     (copyLoop [0, 0, 0] [7, 8, 9] 0 3).length = 3 ∧
     ∀ i : Nat, i < 3 →
       (copyLoop [0, 0, 0] [7, 8, 9] 0 3).getD i 0 = List.getD [7, 8, 9] i 0) :=
  ⟨rfl, rfl, C2_copy_correct [0, 0, 0] [7, 8, 9] 3 rfl rfl⟩

/-- C3: for every present sequence of length `len ≥ 1`, the value
returned by `array_max_ptr` is an upper bound of the elements, is one of
the elements, and a present flag slot holds 1 after the call. -/
theorem C3_max_correct (l : List Int) (len : Nat) (h : l.length = len) (hpos : 1 ≤ len)
    (okPresent : Bool) :
    (∀ x ∈ l, x ≤ (array_max_ptr (some l) len okPresent).1) ∧
    (array_max_ptr (some l) len okPresent).1 ∈ l ∧
    (array_max_ptr (some l) len okPresent).2 = (if okPresent then some 1 else none) := by
  have h1 : array_max_ptr (some l) len okPresent =
      (maxLoop l 1 len (l.getD 0 0), if okPresent then some 1 else none) := by
    simp only [array_max_ptr]
    rw [if_neg (show ¬len = 0 by omega)]
  rw [h1]
  refine ⟨?_, ?_, rfl⟩
  · intro x hx
    rcases List.mem_iff_getElem.mp hx with ⟨j, hj, hjx⟩
    rw [← hjx, ← List.getD_eq_getElem l 0 hj]
    rcases Nat.eq_zero_or_pos j with hj0 | hj0
    · rw [hj0]
      exact (maxLoop_ge l 1 len (l.getD 0 0)).1
    · exact (maxLoop_ge l 1 len (l.getD 0 0)).2 j (by omega) (by omega)
  · rcases maxLoop_mem l 1 len (l.getD 0 0) with heq | hj
    · rw [heq]
      exact getD_mem (by omega)
    · rcases hj with ⟨j, _hj1, hj2, hj3⟩
      rw [hj3]
      exact getD_mem (by omega)

/-- Witness for C3 at the concrete input of the spec example. -/
theorem C3_max_correct_witness :
    List.length [3, -1, 7, 2] = 4 ∧ 1 ≤ 4 ∧
    ((∀ x ∈ [(3 : Int), -1, 7, 2], x ≤ (array_max_ptr (some [3, -1, 7, 2]) 4 true).1) ∧
     (array_max_ptr (some [3, -1, 7, 2]) 4 true).1 ∈ [(3 : Int), -1, 7, 2] ∧
     (array_max_ptr (some [3, -1, 7, 2]) 4 true).2 = (if true then some 1 else none)) :=
  ⟨rfl, by omega, C3_max_correct [3, -1, 7, 2] 4 rfl (by omega) true⟩

/-- C4: for every present sequence of `len` elements, `array_sum_ptr`
returns the mathematical sum of the elements reduced by 32-bit
two's-complement wraparound. -/
theorem C4_sum_correct (l : List Int) (len : Nat) (h : l.length = len) :
    array_sum_ptr (some l) len = wrap32 l.sum := by
  show (l.take len).foldl (fun s x => wrap32 (s + x)) 0 = wrap32 l.sum
  rw [← h, List.take_length]
  rw [foldl_wrapAdd l 0 (by decide), zero_add]

/-- Witness for C4 at a concrete input. -/
theorem C4_sum_correct_witness :
    List.length [1, 2, 3, 4] = 4 ∧
    array_sum_ptr (some [1, 2, 3, 4]) 4 = wrap32 (List.sum [1, 2, 3, 4]) :=
  ⟨rfl, C4_sum_correct [1, 2, 3, 4] 4 rfl⟩

/-- C5: for every present sequence of `len` elements, applying
`array_reverse_ptr` twice restores the original order, and both calls
return 0. -/
theorem C5_reverse_involution (l : List Int) (len : Nat) (h : l.length = len) :
    (array_reverse_ptr (some l) len).1 = 0 ∧
    (array_reverse_ptr (some l) len).2 = some (reverseLoop l 0 len) ∧
    (array_reverse_ptr (some (reverseLoop l 0 len)) len).1 = 0 ∧
    (array_reverse_ptr (some (reverseLoop l 0 len)) len).2 = some l := by
  subst h
  refine ⟨rfl, rfl, rfl, ?_⟩
  show some (reverseLoop (reverseLoop l 0 l.length) 0 l.length) = some l
  rw [reverseLoop_eq_reverse]
  have h2 : l.reverse.length = l.length := by simp
  have h3 := reverseLoop_eq_reverse l.reverse
  rw [h2] at h3
  rw [h3, List.reverse_reverse]

/-- Witness for C5 at a concrete input. -/
theorem C5_reverse_involution_witness :
    List.length [1, 2, 3, 4, 5] = 5 ∧
    ((array_reverse_ptr (some [1, 2, 3, 4, 5]) 5).1 = 0 ∧
     (array_reverse_ptr (some [1, 2, 3, 4, 5]) 5).2 = some (reverseLoop [1, 2, 3, 4, 5] 0 5) ∧
     (array_reverse_ptr (some (reverseLoop [1, 2, 3, 4, 5] 0 5)) 5).1 = 0 ∧
     (array_reverse_ptr (some (reverseLoop [1, 2, 3, 4, 5] 0 5)) 5).2 =
       some [1, 2, 3, 4, 5]) :=
  ⟨rfl, C5_reverse_involution [1, 2, 3, 4, 5] 5 rfl⟩

/-- C6: on invalid input (NULL array, or zero length) `array_max_ptr`
returns `INT_MIN`, and a present flag slot holds 0 after the call. -/
theorem C6_max_invalid (len : Nat) (okPresent : Bool) (l : List Int) :
    array_max_ptr none len okPresent = (INT_MIN, if okPresent then some 0 else none) ∧
    array_max_ptr (some l) 0 okPresent = (INT_MIN, if okPresent then some 0 else none) :=
  ⟨rfl, rfl⟩

/-- C7: `array_sum_ptr` returns 0 when the array is NULL (any length),
and returns 0 for length 0 whether the array is present or absent. -/
theorem C7_sum_degenerate :
    (∀ len : Nat, array_sum_ptr none len = 0) ∧
    (∀ arr : Option (List Int), array_sum_ptr arr 0 = 0) := by
  refine ⟨fun _ => rfl, ?_⟩
  intro arr
  cases arr with
  | none => rfl
  | some l =>
    show (l.take 0).foldl (fun s x => wrap32 (s + x)) 0 = 0
    rw [List.take_zero, List.foldl_nil]

/-- C8: with a positive length and a NULL reference, `array_copy_ptr`
returns -1 and leaves the destination unchanged, and `array_reverse_ptr`
returns -1 with no change. -/
theorem C8_invalid_unchanged (len : Nat) (hpos : 0 < len) (src dst : Option (List Int))
    (d : List Int) :
    array_copy_ptr none src len = (-1, none) ∧
    array_copy_ptr dst none len = (-1, dst) ∧
    array_copy_ptr (some d) none len = (-1, some d) ∧
    array_reverse_ptr none len = (-1, none) := by
  refine ⟨?_, ?_, ?_, ?_⟩
  · unfold array_copy_ptr
    rw [if_pos ⟨Or.inl rfl, hpos⟩]
  · unfold array_copy_ptr
    rw [if_pos ⟨Or.inr rfl, hpos⟩]
  · unfold array_copy_ptr
    rw [if_pos ⟨Or.inr rfl, hpos⟩]
  · show (if len > 0 then ((-1 : Int), (none : Option (List Int))) else (0, none)) =
      (-1, none)
    rw [if_pos hpos]

/-- Witness for C8 at a concrete input. -/
theorem C8_invalid_unchanged_witness :
    0 < 1 ∧
    (array_copy_ptr none (some [5]) 1 = (-1, none) ∧
     array_copy_ptr (some [7]) none 1 = (-1, some [7]) ∧
     array_copy_ptr (some [7]) none 1 = (-1, some [7]) ∧
     array_reverse_ptr none 1 = (-1, none)) :=
  ⟨by omega, C8_invalid_unchanged 1 (by omega) (some [5]) (some [7]) [7]⟩

/-- C9: with length 0, `array_copy_ptr` and `array_reverse_ptr` return 0
and change nothing, even when every reference is NULL. -/
theorem C9_empty_success (dst src arr : Option (List Int)) :
    array_copy_ptr dst src 0 = (0, dst) ∧ array_reverse_ptr arr 0 = (0, arr) := by
  constructor
  · cases dst with
    | none =>
      cases src with
      | none => rfl
      | some s => rfl
    | some d =>
      cases src with
      | none => rfl
      | some s =>
        show ((0 : Int), some (copyLoop d s 0 0)) = (0, some d)
        rw [copyLoop_zero]
  · cases arr with
    | none => rfl
    | some l =>
      show ((0 : Int), some (reverseLoop l 0 0)) = (0, some l)
      rw [reverseLoop_zero]

/-- C10: the value returned by `array_max_ptr` does not depend on
whether the optional flag slot is present; the array argument is read
through a const pointer and the embedding keeps it immutable. -/
theorem C10_max_flag_noninterference (arr : Option (List Int)) (len : Nat)
    (okA okB : Bool) :
    (array_max_ptr arr len okA).1 = (array_max_ptr arr len okB).1 := by
  cases arr with
  | none => rfl
  | some l =>
    simp only [array_max_ptr]
    by_cases h0 : len = 0
    · rw [if_pos h0, if_pos h0]
    · rw [if_neg h0, if_neg h0]

end PointerArray
